import Mathlib

/-!
# CHTMLSAXParser: the variadic formatter and the dispatch shims

A shallow embedding of `Sources/CHTMLSAXParser/CHTMLSAXParser.c`.

* C strings are `List Char` (the characters before the terminator).
* Pointers are `Option Nat`: `none` is `NULL`, `some a` is the address `a`.
* `int` is `Int` wrapped to 32 bits by `wrapInt`; `size_t` is `Nat` below `2 ^ 64`,
  and an `int` compared with or stored into a `size_t` goes through `toSizeT`.
* The heap, the two global handler slots and a trace of observable events are
  threaded explicitly through every function as a `State`.
* The pattern of allocation successes and failures is a parameter `ok : Nat → Bool`:
  `ok k` is the outcome of the `k`-th allocation attempt of the process.
* The formatted-output primitive of the C library enters through its unbounded
  expansion `expand : List Char → List Arg → Option (List Char)`.
* The `do ... while` loop of `formatstr` is run with a fuel bound; `none` means that the
  fuel ran out before the loop condition became false.
-/

namespace CHTMLSAXParser

/-! ## Machine integers -/

/-- Largest value of the C type `int`. -/
def INT_MAX : Int := 2 ^ 31 - 1

/-- Number of values of the C type `size_t`. -/
def SIZE_MOD : Nat := 2 ^ 64

/-- Result of an `int` computation, wrapped to 32 bits two's complement. -/
def wrapInt (x : Int) : Int := (x + 2 ^ 31) % 2 ^ 32 - 2 ^ 31

/-- Conversion of an `int` to `size_t`, as in the usual arithmetic conversions. -/
def toSizeT (x : Int) : Nat := (x % 2 ^ 64).toNat

/-! ## Heap, globals and trace -/

/-- The two handler slots of the module. -/
inductive Slot where
  | error
  | warning
  deriving DecidableEq, Repr

/-- Observable events, oldest first in `State.trace`. -/
inductive Event where
  /-- A block of `size` bytes was obtained at address `addr`. -/
  | alloc (addr size : Nat)
  /-- The block at `addr` was handed back to the allocator. -/
  | release (addr : Nat)
  /-- The wrapped function `handler` stored in `slot` was called with `(ctx, msg)`;
  `msg` is `none` for a `NULL` message, else the address and the string read there. -/
  | forward (slot : Slot) (handler : Nat) (ctx : Nat) (msg : Option (Nat × List Char))
  deriving DecidableEq, Repr

/-- A live heap block: its address, its allocated capacity in bytes and the C string
it currently holds. -/
structure Block where
  addr : Nat
  size : Nat
  text : List Char
  deriving DecidableEq, Repr

/-- Process state seen by the module. -/
structure State where
  /-- Blocks currently allocated, newest first. -/
  live : List Block
  /-- Address the next successful allocation returns. -/
  next : Nat
  /-- Number of allocation attempts made so far. -/
  attempts : Nat
  /-- Events so far, oldest first. -/
  trace : List Event
  /-- The global `htmlparser_global_error_sax_func`; `none` is `NULL`. -/
  htmlparser_global_error_sax_func : Option Nat
  /-- The global `htmlparser_global_warning_sax_func`; `none` is `NULL`. -/
  htmlparser_global_warning_sax_func : Option Nat
  deriving DecidableEq, Repr

/-- String held by the live block at `addr`; `[]` when no such block is live. -/
def readStr (live : List Block) (addr : Nat) : List Char :=
  match live.find? (fun b => b.addr == addr) with
  | some b => b.text
  | none => []

/-- Capacity of the live block at `addr`, if one is live. -/
def capacity (live : List Block) (addr : Nat) : Option Nat :=
  (live.find? (fun b => b.addr == addr)).map Block.size

/-- The heap after the string `t` is stored in the block at `addr`. -/
def writeStr (live : List Block) (addr : Nat) (t : List Char) : List Block :=
  live.map (fun b => if b.addr == addr then { b with text := t } else b)

/-- Library `free(p)` for a non-null `p`: the block leaves the heap and the release is
recorded. -/
def free (st : State) (p : Nat) : State :=
  { st with
    live := st.live.filter (fun b => b.addr != p)
    trace := st.trace ++ [Event.release p] }

/-- Library `realloc(p, size)`. A failed attempt returns `NULL` and leaves every block,
the one at `p` included, as it was. A successful attempt returns a fresh block of `size`
bytes that keeps the old string as far as it fits, and the old block, if any, is
released. -/
def realloc (ok : Nat → Bool) (st : State) (p : Option Nat) (size : Nat) :
    State × Option Nat :=
  if ok st.attempts then
    let old : List Char := match p with
      | some a => (readStr st.live a).take (size - 1)
      | none => []
    let st1 : State := match p with
      | some a => free st a
      | none => st
    ({ st1 with
        live := ⟨st.next, size, old⟩ :: st1.live
        next := st.next + 1
        attempts := st.attempts + 1
        trace := st1.trace ++ [Event.alloc st.next size] },
     some st.next)
  else
    ({ st with attempts := st.attempts + 1 }, none)

/-! ## The formatted-output primitive -/

/-- One element of a `va_list`. -/
inductive Arg where
  | int (i : Int)
  | str (s : List Char)
  deriving DecidableEq, Repr

/-- Value `vsnprintf` returns for an unbounded expansion `r`: its length when that fits
an `int`, a negative value for an encoding error or an overlong result. -/
def requiredLength (r : Option (List Char)) : Int :=
  match r with
  | some s => if (s.length : Int) ≤ INT_MAX then (s.length : Int) else -1
  | none => -1

/-- Library `vsnprintf(buffer, size, format, args)` on the block at `buffer`: at most
`size - 1` characters of the expansion are stored (nothing when `size` is `0` or the
primitive fails), and the required length is returned whatever the size was. -/
def vsnprintf (expand : List Char → List Arg → Option (List Char)) (st : State)
    (buffer : Nat) (size : Nat) (format : List Char) (args : List Arg) : State × Int :=
  let r := expand format args
  let ret := requiredLength r
  match r with
  | some s =>
    if 0 ≤ ret ∧ 0 < size then
      ({ st with live := writeStr st.live buffer (s.take (size - 1)) }, ret)
    else (st, ret)
  | none => (st, ret)

/-! ## `formatstr` -/

/-- Local variables of `formatstr` that live across loop iterations. -/
structure Locals where
  consumed : Int
  buffer_size : Nat
  buffer : Option Nat
  deriving DecidableEq, Repr

/-- New value of `buffer_size` at the top of the loop body. -/
def growSize (consumed : Int) (buffer_size : Nat) : Nat :=
  if toSizeT consumed > buffer_size then
    toSizeT (wrapInt (consumed + 1))
  else
    (buffer_size + 100) % SIZE_MOD

/-- One pass through the body of the `do ... while` loop. -/
def loopBody (ok : Nat → Bool) (expand : List Char → List Arg → Option (List Char))
    (format : List Char) (args : List Arg) (st : State) (l : Locals) : State × Locals :=
  let buffer_size := growSize l.consumed l.buffer_size
  let r := realloc ok st l.buffer buffer_size
  match r.2 with
  | some p =>
    let v := vsnprintf expand r.1 p buffer_size format args
    (v.1, ⟨v.2, buffer_size, some p⟩)
  | none => (r.1, ⟨l.consumed, buffer_size, none⟩)

/-- The loop condition `buffer != NULL && consumed > 0 && consumed >= buffer_size`. -/
def loopCond (l : Locals) : Bool :=
  l.buffer.isSome && decide (l.consumed > 0) && decide (toSizeT l.consumed ≥ l.buffer_size)

/-- The `do ... while` loop, at most `fuel` passes. -/
def doWhile (ok : Nat → Bool) (expand : List Char → List Arg → Option (List Char))
    (format : List Char) (args : List Arg) : Nat → State → Locals → Option (State × Locals)
  | 0, _, _ => none
  | fuel + 1, st, l =>
    let r := loopBody ok expand format args st l
    if loopCond r.2 then doWhile ok expand format args fuel r.1 r.2 else some r

/-- The function `formatstr(format, args)`: the final state and the returned pointer. -/
def formatstr (ok : Nat → Bool) (expand : List Char → List Arg → Option (List Char))
    (fuel : Nat) (st : State) (format : List Char) (args : List Arg) :
    Option (State × Option Nat) :=
  match doWhile ok expand format args fuel st ⟨0, 0, none⟩ with
  | none => none
  | some (st1, l) =>
    match l.buffer with
    | some p =>
      if l.consumed > 0 ∧ toSizeT l.consumed < l.buffer_size then
        some (st1, some p)
      else
        some (free st1 p, none)
    | none => some (st1, none)

/-! ## Dispatch shims -/

/-- Call of the wrapped function stored in a slot, `f(ctx, msg)`. The wrapped function
belongs to the embedding application; the module sees the call and nothing else. -/
def callWrapped (slot : Slot) (f : Nat) (st : State) (ctx : Nat) (msg : Option Nat) : State :=
  { st with trace := st.trace ++
      [Event.forward slot f ctx (msg.map (fun p => (p, readStr st.live p)))] }

/-- The variadic callback `htmlparser_error_sax_handler(ctx, msg, ...)`. The result is
`none` when `formatstr` has none, or when the slot is `NULL` at the time of the call
through it. -/
def htmlparser_error_sax_handler (ok : Nat → Bool)
    (expand : List Char → List Arg → Option (List Char)) (fuel : Nat)
    (st : State) (ctx : Nat) (msg : List Char) (args : List Arg) : Option State :=
  match st.htmlparser_global_error_sax_func with
  | none => some st
  | some _ =>
    match formatstr ok expand fuel st msg args with
    | none => none
    | some (st1, formatted_msg) =>
      match st1.htmlparser_global_error_sax_func with
      | none => none
      | some f =>
        let st2 := callWrapped Slot.error f st1 ctx formatted_msg
        match formatted_msg with
        | some p => some (free st2 p)
        | none => some st2

/-- The variadic callback `htmlparser_warning_sax_handler(ctx, msg, ...)`. The result
is `none` when `formatstr` has none, or when the slot is `NULL` at the time of the call
through it. -/
def htmlparser_warning_sax_handler (ok : Nat → Bool)
    (expand : List Char → List Arg → Option (List Char)) (fuel : Nat)
    (st : State) (ctx : Nat) (msg : List Char) (args : List Arg) : Option State :=
  match st.htmlparser_global_warning_sax_func with
  | none => some st
  | some _ =>
    match formatstr ok expand fuel st msg args with
    | none => none
    | some (st1, formatted_msg) =>
      match st1.htmlparser_global_warning_sax_func with
      | none => none
      | some f =>
        let st2 := callWrapped Slot.warning f st1 ctx formatted_msg
        match formatted_msg with
        | some p => some (free st2 p)
        | none => some st2

/-! ## Installing the shims -/

/-- Values a callback field of the SAX handler structure can hold. -/
inductive FnPtr where
  | null
  | htmlparser_error_sax_handler
  | htmlparser_warning_sax_handler
  | other (id : Nat)
  deriving DecidableEq, Repr

/-- The parser library's `htmlSAXHandler`: the two fields this module writes, and all
its remaining fields together as `rest`, whose type `R` is left to the library. -/
structure htmlSAXHandler (R : Type) where
  warning : FnPtr
  error : FnPtr
  rest : R
  deriving DecidableEq, Repr

/-- The function `htmlparser_set_global_error_handler(sax_handler)`; `none` is a `NULL`
`sax_handler`. Returns the state and the structure behind the pointer after the call. -/
def htmlparser_set_global_error_handler {R : Type} (st : State)
    (sax_handler : Option (htmlSAXHandler R)) : State × Option (htmlSAXHandler R) :=
  match sax_handler with
  | some s => (st, some { s with error := FnPtr.htmlparser_error_sax_handler })
  | none => (st, none)

/-- The function `htmlparser_set_global_warning_handler(sax_handler)`; `none` is a
`NULL` `sax_handler`. Returns the state and the structure behind the pointer after the
call. -/
def htmlparser_set_global_warning_handler {R : Type} (st : State)
    (sax_handler : Option (htmlSAXHandler R)) : State × Option (htmlSAXHandler R) :=
  match sax_handler with
  | some s => (st, some { s with warning := FnPtr.htmlparser_warning_sax_handler })
  | none => (st, none)

/-! ## A concrete primitive and concrete states -/

/-- Decimal digits of an `int`, as `%d` prints them. -/
def decimal (i : Int) : List Char :=
  if i < 0 then '-' :: Nat.toDigits 10 i.natAbs else Nat.toDigits 10 i.toNat

/-- A fragment of the C library's conversion rules: `%d` with an `int`, `%s` with a
string, `%%`, and ordinary characters. Anything else has no expansion here. -/
def cExpand : List Char → List Arg → Option (List Char)
  | [], _ => some []
  | [c], _ => if c = '%' then none else some [c]
  | c :: d :: rest, args =>
    if c = '%' then
      if d = '%' then (cExpand rest args).map (fun t => '%' :: t)
      else if d = 'd' then
        match args with
        | Arg.int i :: args1 => (cExpand rest args1).map (fun t => decimal i ++ t)
        | _ => none
      else if d = 's' then
        match args with
        | Arg.str s :: args1 => (cExpand rest args1).map (fun t => s ++ t)
        | _ => none
      else none
    else (cExpand (d :: rest) args).map (fun t => c :: t)

/-- Every allocation attempt succeeds. -/
def allOk : Nat → Bool := fun _ => true

/-- Only the first `k` allocation attempts succeed. -/
def okFirst (k : Nat) : Nat → Bool := fun i => decide (i < k)

/-- A state with an empty heap and the given handler slots. -/
def initState (e w : Option Nat) : State :=
  { live := [], next := 1, attempts := 0, trace := [],
    htmlparser_global_error_sax_func := e, htmlparser_global_warning_sax_func := w }

/-! ## Parses and observations -/

/-- One callback invocation made by the parser library. -/
structure Invocation where
  slot : Slot
  ctx : Nat
  msg : List Char
  args : List Arg
  deriving DecidableEq, Repr

/-- The shim behind the callback field an invocation goes through. -/
def invoke (ok : Nat → Bool) (expand : List Char → List Arg → Option (List Char))
    (fuel : Nat) (st : State) (i : Invocation) : Option State :=
  match i.slot with
  | Slot.error => htmlparser_error_sax_handler ok expand fuel st i.ctx i.msg i.args
  | Slot.warning => htmlparser_warning_sax_handler ok expand fuel st i.ctx i.msg i.args

/-- A sequence of callback invocations, run in order. -/
def invokeAll (ok : Nat → Bool) (expand : List Char → List Arg → Option (List Char))
    (fuel : Nat) : State → List Invocation → Option State
  | st, [] => some st
  | st, i :: rest =>
    match invoke ok expand fuel st i with
    | some st1 => invokeAll ok expand fuel st1 rest
    | none => none

/-- The handler slot of a given kind. -/
def slotValue (st : State) : Slot → Option Nat
  | Slot.error => st.htmlparser_global_error_sax_func
  | Slot.warning => st.htmlparser_global_warning_sax_func

/-- Whether an event is a call of a wrapped handler. -/
def Event.isForward : Event → Bool
  | Event.forward _ _ _ _ => true
  | _ => false

/-- The calls of wrapped handlers in a trace, in order. -/
def forwards (tr : List Event) : List Event := tr.filter Event.isForward

/-- The globals and the handler calls made so far are the same in both states. -/
def SameHandlers (st st1 : State) : Prop :=
  st1.htmlparser_global_error_sax_func = st.htmlparser_global_error_sax_func ∧
  st1.htmlparser_global_warning_sax_func = st.htmlparser_global_warning_sax_func ∧
  forwards st1.trace = forwards st.trace

/-! ## The expected trace of successful invocations -/

/-- Every live block lies below the next fresh address. -/
def HeapOk (st : State) : Prop := ∀ b ∈ st.live, b.addr < st.next

/-- Address of the block an event obtains. -/
def Event.allocAddr : Event → Option Nat
  | Event.alloc a _ => some a
  | _ => none

/-- Address of the block an event releases. -/
def Event.releaseAddr : Event → Option Nat
  | Event.release a => some a
  | _ => none

/-- Address of the message buffer an event hands to a handler. -/
def Event.forwardAddr : Event → Option Nat
  | Event.forward _ _ _ (some (a, _)) => some a
  | _ => none

/-- Number of buffers `formatstr` obtains for a message `s` when no allocation fails. -/
def invocationBuffers (s : List Char) : Nat := if s.length < 100 then 1 else 2

/-- Reference trace of one shim invocation that forwards the message `s` to the handler
`f`, with `lo` the next fresh address: the message buffer is obtained, handed to the
handler once, and released after that call; a message of 100 characters or more first
costs a buffer of 100 bytes that is released when the larger one replaces it. -/
def expectedInvocationEvents (lo : Nat) (slot : Slot) (f ctx : Nat) (s : List Char) :
    List Event :=
  if s.length < 100 then
    [Event.alloc lo 100, Event.forward slot f ctx (some (lo, s)), Event.release lo]
  else
    [Event.alloc lo 100, Event.release lo,
     Event.alloc (lo + 1) (growSize (s.length : Int) 100),
     Event.forward slot f ctx (some (lo + 1, s)), Event.release (lo + 1)]

/-- Reference trace of a sequence of shim invocations, each with a handler in its slot
and a successful formatting: the traces of the invocations one after the other, every
invocation taking its buffers at the addresses after those of the previous ones. -/
def expectedTrace (expand : List Char → List Arg → Option (List Char))
    (slots : Slot → Option Nat) : Nat → List Invocation → List Event
  | _, [] => []
  | lo, i :: rest =>
    match slots i.slot, expand i.msg i.args with
    | some f, some s =>
      expectedInvocationEvents lo i.slot f i.ctx s ++
        expectedTrace expand slots (lo + invocationBuffers s) rest
    | _, _ => []

/-! ## Arithmetic and heap lemmas -/

/-- The first pass asks for 100 bytes. -/
theorem growSize_init : growSize 0 0 = 100 := by
  simp [growSize, toSizeT, SIZE_MOD]

/-- A non-negative `int` keeps its value as a `size_t`. -/
theorem toSizeT_natCast (n : Nat) (h : n < 2 ^ 64) : toSizeT (n : Int) = n := by
  unfold toSizeT; omega

/-- A rendering that fits an `int` is reported with its length. -/
theorem requiredLength_some (s : List Char) (h : s.length ≤ 2147483647) :
    requiredLength (some s) = (s.length : Int) := by
  simp only [requiredLength, INT_MAX]
  split <;> omega

/-- The reported length is an `int`. -/
theorem requiredLength_le (r : Option (List Char)) : requiredLength r ≤ 2147483647 := by
  unfold requiredLength INT_MAX
  split
  · split <;> omega
  · omega

/-- A positive reported length is the length of an actual rendering. -/
theorem requiredLength_pos_inv (r : Option (List Char)) (n : Int)
    (h : requiredLength r = n) (hpos : 1 ≤ n) :
    ∃ s, r = some s ∧ (s.length : Int) = n ∧ s.length ≤ 2147483647 := by
  cases r with
  | none => simp [requiredLength] at h; omega
  | some s =>
    simp only [requiredLength, INT_MAX] at h
    split at h
    · exact ⟨s, rfl, h, by omega⟩
    · omega

/-- The size asked for in a second pass, after a first buffer of 100 bytes. -/
theorem growSize_second (n : Int) (h1 : 100 ≤ n) (h2 : n ≤ 2147483647) :
    toSizeT n < growSize n 100 ∧
    (n = 100 → growSize n 100 = 200) ∧
    (100 < n → n < 2147483647 → growSize n 100 = n.toNat + 1) := by
  unfold growSize toSizeT wrapInt SIZE_MOD
  refine ⟨?_, ?_, ?_⟩
  · split <;> omega
  · intro h; subst h; decide
  · intro h3 h4; split <;> omega

/-- Storing a string in the newest block. -/
theorem writeStr_cons_self (p c : Nat) (t0 t : List Char) (l : List Block) :
    writeStr (⟨p, c, t0⟩ :: l) p t = ⟨p, c, t⟩ :: writeStr l p t := by
  simp [writeStr]

/-- Releasing the newest block. -/
theorem filter_cons_self (p c : Nat) (t : List Char) (l : List Block) :
    (⟨p, c, t⟩ :: l : List Block).filter (fun b => b.addr != p)
      = l.filter (fun b => b.addr != p) := by
  simp

/-- Reading the newest block. -/
theorem readStr_cons_self (p c : Nat) (t : List Char) (l : List Block) :
    readStr (⟨p, c, t⟩ :: l) p = t := by
  simp [readStr]

/-- Capacity of the newest block. -/
theorem capacity_cons_self (p c : Nat) (t : List Char) (l : List Block) :
    capacity (⟨p, c, t⟩ :: l) p = some c := by
  simp [capacity]

/-! ## Runs of `formatstr`, path by path -/

section Runs

variable (ok : Nat → Bool) (expand : List Char → List Arg → Option (List Char))

/-- Without fuel there is no result. -/
theorem run_zero_fuel (st : State) (format : List Char) (args : List Arg) :
    formatstr ok expand 0 st format args = none := by
  simp [writeStr_cons_self, formatstr, doWhile]

/-- The first allocation fails: `NULL` after one attempt, heap untouched. -/
theorem run_first_fail (st : State) (format : List Char) (args : List Arg) (fuel : Nat)
    (h : ok st.attempts = false) :
    formatstr ok expand (fuel + 1) st format args
      = some ({ st with attempts := st.attempts + 1 }, none) := by
  simp [writeStr_cons_self, formatstr, doWhile, loopBody, growSize_init, realloc, h, loopCond]

/-- A rendering of 1 to 99 characters is returned in the first buffer. -/
theorem run_short (st : State) (format : List Char) (args : List Arg) (fuel : Nat)
    (s : List Char)
    (h : ok st.attempts = true) (hs : expand format args = some s) (h0 : 0 < s.length)
    (h1 : s.length < 100) :
    formatstr ok expand (fuel + 1) st format args
      = some ({ st with
                live := ⟨st.next, 100, s⟩ :: writeStr st.live st.next s
                next := st.next + 1
                attempts := st.attempts + 1
                trace := st.trace ++ [Event.alloc st.next 100] }, some st.next) := by
  have hr : requiredLength (some s) = (s.length : Int) := requiredLength_some s (by omega)
  have ht : toSizeT (s.length : Int) = s.length := toSizeT_natCast _ (by omega)
  have hk : List.take 99 s = s := List.take_of_length_le (by omega)
  have hn : ¬ (100 ≤ s.length) := by omega
  simp [writeStr_cons_self, formatstr, doWhile, loopBody, growSize_init, realloc, h, loopCond,
    vsnprintf, hs, hr, ht, hk, hn, h0, h1]

/-- The primitive fails: the first buffer is released and `NULL` returned. -/
theorem run_no_expansion (st : State) (format : List Char) (args : List Arg) (fuel : Nat)
    (h : ok st.attempts = true) (hs : expand format args = none) :
    formatstr ok expand (fuel + 1) st format args
      = some ({ st with
                live := st.live.filter (fun b => b.addr != st.next)
                next := st.next + 1
                attempts := st.attempts + 1
                trace := st.trace ++ [Event.alloc st.next 100, Event.release st.next] }, none) := by
  simp [writeStr_cons_self, formatstr, doWhile, loopBody, growSize_init, realloc, h, loopCond,
    vsnprintf, hs, requiredLength, free]

/-- The rendering does not fit an `int`: the first buffer is released and `NULL`
returned. -/
theorem run_overlong (st : State) (format : List Char) (args : List Arg) (fuel : Nat)
    (s : List Char)
    (h : ok st.attempts = true) (hs : expand format args = some s)
    (h0 : 2147483647 < s.length) :
    formatstr ok expand (fuel + 1) st format args
      = some ({ st with
                live := st.live.filter (fun b => b.addr != st.next)
                next := st.next + 1
                attempts := st.attempts + 1
                trace := st.trace ++ [Event.alloc st.next 100, Event.release st.next] }, none) := by
  have hr : requiredLength (some s) = -1 := by
    simp only [requiredLength, INT_MAX]; split <;> omega
  simp [writeStr_cons_self, formatstr, doWhile, loopBody, growSize_init, realloc, h, loopCond,
    vsnprintf, hs, hr, free]

/-- The rendering is empty: the first buffer is released and `NULL` returned. -/
theorem run_empty (st : State) (format : List Char) (args : List Arg) (fuel : Nat)
    (h : ok st.attempts = true) (hs : expand format args = some []) :
    formatstr ok expand (fuel + 1) st format args
      = some ({ st with
                live := (writeStr st.live st.next []).filter (fun b => b.addr != st.next)
                next := st.next + 1
                attempts := st.attempts + 1
                trace := st.trace ++ [Event.alloc st.next 100, Event.release st.next] }, none) := by
  simp [writeStr_cons_self, formatstr, doWhile, loopBody, growSize_init, realloc, h, loopCond,
    vsnprintf, hs, requiredLength, free, INT_MAX]

/-- A rendering of 100 characters or more needs a second pass. -/
theorem run_long_one_pass (st : State) (format : List Char) (args : List Arg)
    (s : List Char)
    (h : ok st.attempts = true) (hs : expand format args = some s) (h0 : 100 ≤ s.length)
    (h1 : s.length ≤ 2147483647) :
    formatstr ok expand 1 st format args = none := by
  have hr : requiredLength (some s) = (s.length : Int) := requiredLength_some s (by omega)
  have ht : toSizeT (s.length : Int) = s.length := toSizeT_natCast _ (by omega)
  have hp : 0 < s.length := by omega
  simp [writeStr_cons_self, formatstr, doWhile, loopBody, growSize_init, realloc, h, loopCond,
    vsnprintf, hs, hr, ht, h0, hp]

/-- A rendering of 100 characters or more whose second allocation fails: `NULL` is
returned and the first buffer stays in the heap. -/
theorem run_long_fail (st : State) (format : List Char) (args : List Arg) (fuel : Nat)
    (s : List Char)
    (h : ok st.attempts = true) (hs : expand format args = some s) (h0 : 100 ≤ s.length)
    (h1 : s.length ≤ 2147483647)
    (h2 : ok (st.attempts + 1) = false) :
    formatstr ok expand (fuel + 2) st format args
      = some ({ st with
                live := ⟨st.next, 100, s.take 99⟩ :: writeStr st.live st.next (s.take 99)
                next := st.next + 1
                attempts := st.attempts + 2
                trace := st.trace ++ [Event.alloc st.next 100] }, none) := by
  have hr : requiredLength (some s) = (s.length : Int) := requiredLength_some s (by omega)
  have ht : toSizeT (s.length : Int) = s.length := toSizeT_natCast _ (by omega)
  have hp : 0 < s.length := by omega
  simp [writeStr_cons_self, formatstr, doWhile, loopBody, growSize_init, realloc, h, h2,
    loopCond, vsnprintf, hs, hr, ht, h0, hp]

/-- A rendering of 100 characters or more is returned in the second buffer. -/
theorem run_long (st : State) (format : List Char) (args : List Arg) (fuel : Nat)
    (s : List Char)
    (h : ok st.attempts = true) (hs : expand format args = some s) (h0 : 100 ≤ s.length)
    (h1 : s.length ≤ 2147483647)
    (h2 : ok (st.attempts + 1) = true) :
    formatstr ok expand (fuel + 2) st format args
      = some ({ st with
                live := ⟨st.next + 1, growSize (s.length : Int) 100, s⟩ ::
                  writeStr ((writeStr st.live st.next (s.take 99)).filter
                    (fun b => b.addr != st.next)) (st.next + 1) s
                next := st.next + 2
                attempts := st.attempts + 2
                trace := st.trace ++
                  [Event.alloc st.next 100, Event.release st.next,
                   Event.alloc (st.next + 1) (growSize (s.length : Int) 100)] },
              some (st.next + 1)) := by
  have hr : requiredLength (some s) = (s.length : Int) := requiredLength_some s (by omega)
  have ht : toSizeT (s.length : Int) = s.length := toSizeT_natCast _ (by omega)
  have hp : 0 < s.length := by omega
  obtain ⟨g1, g2, g3⟩ := growSize_second (s.length : Int) (by omega) (by omega)
  rw [ht] at g1
  have g4 : 0 < growSize (s.length : Int) 100 := by omega
  have g5 : ¬ (growSize (s.length : Int) 100 ≤ s.length) := by omega
  have hk : List.take (growSize (s.length : Int) 100 - 1) s = s :=
    List.take_of_length_le (by omega)
  simp [writeStr_cons_self, formatstr, doWhile, loopBody, growSize_init, realloc, h, h2,
    loopCond, vsnprintf, hs, hr, ht, h0, hp, g1, g4, g5, hk, free]

/-! ## `formatstr` leaves the handlers alone -/

/-- The relation `SameHandlers` is reflexive. -/
theorem SameHandlers.refl (st : State) : SameHandlers st st := ⟨rfl, rfl, rfl⟩

/-- The relation `SameHandlers` is transitive. -/
theorem SameHandlers.trans {a b c : State} (h1 : SameHandlers a b) (h2 : SameHandlers b c) :
    SameHandlers a c :=
  ⟨h2.1.trans h1.1, h2.2.1.trans h1.2.1, h2.2.2.trans h1.2.2⟩

/-- Library `free` calls no handler and writes no global. -/
theorem free_sameHandlers (st : State) (p : Nat) : SameHandlers st (free st p) := by
  simp [SameHandlers, free, forwards, Event.isForward]

/-- Library `realloc` calls no handler and writes no global. -/
theorem realloc_sameHandlers (st : State) (p : Option Nat) (size : Nat) :
    SameHandlers st (realloc ok st p size).1 := by
  unfold realloc
  split
  · cases p <;> simp [SameHandlers, free, forwards, Event.isForward]
  · simp [SameHandlers]

/-- Library `vsnprintf` calls no handler and writes no global. -/
theorem vsnprintf_sameHandlers (st : State) (b size : Nat) (format : List Char)
    (args : List Arg) : SameHandlers st (vsnprintf expand st b size format args).1 := by
  simp only [vsnprintf]
  cases expand format args with
  | none => simp [SameHandlers]
  | some s => simp only []; split <;> simp [SameHandlers]

/-- One pass of the loop calls no handler and writes no global. -/
theorem loopBody_sameHandlers (st : State) (l : Locals) (format : List Char)
    (args : List Arg) : SameHandlers st (loopBody ok expand format args st l).1 := by
  simp only [loopBody]
  cases h : (realloc ok st l.buffer (growSize l.consumed l.buffer_size)).2 with
  | none => exact realloc_sameHandlers ok st _ _
  | some p =>
    exact (realloc_sameHandlers ok st _ _).trans (vsnprintf_sameHandlers expand _ _ _ _ _)

/-- The loop calls no handler and writes no global. -/
theorem doWhile_sameHandlers (format : List Char) (args : List Arg) (fuel : Nat) :
    ∀ (st : State) (l : Locals) (r : State × Locals),
      doWhile ok expand format args fuel st l = some r → SameHandlers st r.1 := by
  induction fuel with
  | zero => intro st l r h; simp [doWhile] at h
  | succ n ih =>
    intro st l r h
    simp only [doWhile] at h
    split at h
    · exact (loopBody_sameHandlers ok expand st l format args).trans (ih _ _ _ h)
    · cases h
      exact loopBody_sameHandlers ok expand st l format args

/-- The function `formatstr` calls no handler and writes no global. -/
theorem formatstr_sameHandlers (fuel : Nat) (st st1 : State) (format : List Char)
    (args : List Arg) (q : Option Nat)
    (h : formatstr ok expand fuel st format args = some (st1, q)) : SameHandlers st st1 := by
  unfold formatstr at h
  split at h
  · cases h
  · rename_i st2 l hd
    have h2 := doWhile_sameHandlers ok expand format args fuel st _ _ hd
    split at h
    · split at h
      · cases h; exact h2
      · cases h; exact h2.trans (free_sameHandlers _ _)
    · cases h; exact h2

/-! ## What a non-null result tells -/

/-- A non-null result comes from one of the two successful runs. -/
theorem formatstr_some_inv (fuel : Nat) (st st1 : State) (format : List Char)
    (args : List Arg) (p : Nat)
    (h : formatstr ok expand fuel st format args = some (st1, some p)) :
    ∃ s, expand format args = some s ∧ 0 < s.length ∧ s.length ≤ 2147483647 ∧
      ok st.attempts = true ∧
      ((s.length < 100 ∧ p = st.next ∧
          st1 = { st with
                  live := ⟨st.next, 100, s⟩ :: writeStr st.live st.next s
                  next := st.next + 1
                  attempts := st.attempts + 1
                  trace := st.trace ++ [Event.alloc st.next 100] }) ∨
       (100 ≤ s.length ∧ ok (st.attempts + 1) = true ∧ p = st.next + 1 ∧
          st1 = { st with
                  live := ⟨st.next + 1, growSize (s.length : Int) 100, s⟩ ::
                    writeStr ((writeStr st.live st.next (s.take 99)).filter
                      (fun b => b.addr != st.next)) (st.next + 1) s
                  next := st.next + 2
                  attempts := st.attempts + 2
                  trace := st.trace ++
                    [Event.alloc st.next 100, Event.release st.next,
                     Event.alloc (st.next + 1) (growSize (s.length : Int) 100)] })) := by
  cases fuel with
  | zero => simp [run_zero_fuel] at h
  | succ k =>
    cases hok : ok st.attempts with
    | false => simp [run_first_fail ok expand st format args k hok] at h
    | true =>
      cases hs : expand format args with
      | none => simp [run_no_expansion ok expand st format args k hok hs] at h
      | some s =>
        by_cases hbig : 2147483647 < s.length
        · simp [run_overlong ok expand st format args k s hok hs hbig] at h
        · by_cases hz : s.length = 0
          · have hnil : s = [] := List.length_eq_zero.mp hz
            subst hnil
            simp [run_empty ok expand st format args k hok hs] at h
          · by_cases hshort : s.length < 100
            · rw [run_short ok expand st format args k s hok hs (by omega) hshort] at h
              simp only [Option.some.injEq, Prod.mk.injEq] at h
              exact ⟨s, rfl, by omega, by omega, rfl, Or.inl ⟨hshort, h.2.symm, h.1.symm⟩⟩
            · cases k with
              | zero =>
                simp [run_long_one_pass ok expand st format args s hok hs
                  (by omega) (by omega)] at h
              | succ j =>
                cases hok2 : ok (st.attempts + 1) with
                | false =>
                  simp [run_long_fail ok expand st format args j s hok hs
                    (by omega) (by omega) hok2] at h
                | true =>
                  rw [run_long ok expand st format args j s hok hs
                    (by omega) (by omega) hok2] at h
                  simp only [Option.some.injEq, Prod.mk.injEq] at h
                  exact ⟨s, rfl, by omega, by omega, rfl,
                    Or.inr ⟨by omega, rfl, h.2.symm, h.1.symm⟩⟩

end Runs

/-! ## The formatter returns the full text -/

/-- Claim C1, amended: when every allocation succeeds and the formatting primitive
reports a rendered length `n` with `1 ≤ n`, `formatstr` returns a non-null buffer whose
string is exactly the full rendering, of `n` characters, and whose capacity leaves room
for the terminator. -/
theorem formatstr_returns_full_rendering (ok : Nat → Bool)
    (expand : List Char → List Arg → Option (List Char)) (st : State)
    (format : List Char) (args : List Arg) (n : Int) (fuel : Nat)
    (hok : ∀ k, ok k = true) (hn : requiredLength (expand format args) = n)
    (hpos : 1 ≤ n) (hfuel : 2 ≤ fuel) :
    ∃ s st1 p c, expand format args = some s ∧
      formatstr ok expand fuel st format args = some (st1, some p) ∧
      readStr st1.live p = s ∧ ((readStr st1.live p).length : Int) = n ∧
      capacity st1.live p = some c ∧ s.length < c := by
  obtain ⟨k, rfl⟩ : ∃ k, fuel = k + 2 := ⟨fuel - 2, by omega⟩
  obtain ⟨s, hs, hsn, hmax1⟩ := requiredLength_pos_inv _ n hn hpos
  by_cases hshort : s.length < 100
  · refine ⟨s, _, _, 100, hs, run_short ok expand st format args (k + 1) s (hok _) hs
      (by omega) hshort, ?_, ?_, ?_, hshort⟩
    · exact readStr_cons_self _ _ _ _
    · rw [readStr_cons_self]; exact hsn
    · exact capacity_cons_self _ _ _ _
  · have hg := (growSize_second (s.length : Int) (by omega) (by omega)).1
    rw [toSizeT_natCast _ (by omega)] at hg
    refine ⟨s, _, _, growSize (s.length : Int) 100, hs,
      run_long ok expand st format args k s (hok _) hs (by omega) hmax1 (hok _),
      ?_, ?_, ?_, hg⟩
    · exact readStr_cons_self _ _ _ _
    · rw [readStr_cons_self]; exact hsn
    · exact capacity_cons_self _ _ _ _

/-- Witness for C1, amended: the template `%d warnings` with argument `3`, of rendered
length 10. -/
theorem formatstr_returns_full_rendering_witness :
    requiredLength (cExpand "%d warnings".toList [Arg.int 3]) = 10 ∧
    ∃ s st1 p c, cExpand "%d warnings".toList [Arg.int 3] = some s ∧
      formatstr allOk cExpand 2 (initState none none) "%d warnings".toList
        [Arg.int 3] = some (st1, some p) ∧
      readStr st1.live p = s ∧ ((readStr st1.live p).length : Int) = 10 ∧
      capacity st1.live p = some c ∧ s.length < c :=
  ⟨by decide,
   formatstr_returns_full_rendering allOk cExpand (initState none none)
     "%d warnings".toList [Arg.int 3] 10 2 (fun _ => rfl) (by decide) (by decide)
     (by decide)⟩

/-- Counterexample to C1 as stated: the empty template renders to zero characters, every
allocation succeeds, and `formatstr` returns `NULL` instead of an empty string. -/
theorem formatstr_empty_rendering_not_returned :
    cExpand [] [] = some [] ∧ requiredLength (cExpand [] []) = 0 ∧
    (∀ k, allOk k = true) ∧
    (formatstr allOk cExpand 2 (initState none none) [] []).map Prod.snd = some none ∧
    ¬ ∃ st1 p, formatstr allOk cExpand 2 (initState none none) [] [] = some (st1, some p) ∧
        readStr st1.live p = [] := by
  refine ⟨by decide, by decide, fun _ => rfl, by decide, ?_⟩
  rintro ⟨st1, p, h, -⟩
  have h2 : (formatstr allOk cExpand 2 (initState none none) [] []).map Prod.snd = some none := by
    decide
  rw [h] at h2
  simp at h2

/-! ## The dispatch shims -/

/-- A non-null result of `formatstr` holds the full rendering. -/
theorem formatstr_some_text (ok : Nat → Bool)
    (expand : List Char → List Arg → Option (List Char)) (fuel : Nat) (st st1 : State)
    (format : List Char) (args : List Arg) (p : Nat)
    (h : formatstr ok expand fuel st format args = some (st1, some p)) :
    ∃ s, expand format args = some s ∧ readStr st1.live p = s := by
  obtain ⟨s, hs, -, -, -, hcase⟩ := formatstr_some_inv ok expand fuel st st1 format args p h
  refine ⟨s, hs, ?_⟩
  rcases hcase with ⟨-, hp, hst⟩ | ⟨-, -, hp, hst⟩ <;>
    · subst hp; subst hst; exact readStr_cons_self _ _ _ _

/-- Claim C2: when formatting succeeds, a shim whose slot holds the handler `f` makes
exactly one handler call, to `f` through its own slot, with the context unchanged and the
fully formatted message; no other handler call is added to the trace. -/
theorem shim_forwards_formatted_message (ok : Nat → Bool)
    (expand : List Char → List Arg → Option (List Char)) (fuel : Nat) (st st1 : State)
    (ctx : Nat) (msg : List Char) (args : List Arg) (f p : Nat)
    (hfmt : formatstr ok expand fuel st msg args = some (st1, some p)) :
    ∃ s, expand msg args = some s ∧
      (st.htmlparser_global_error_sax_func = some f →
        ∃ st2, htmlparser_error_sax_handler ok expand fuel st ctx msg args = some st2 ∧
          forwards st2.trace =
            forwards st.trace ++ [Event.forward Slot.error f ctx (some (p, s))]) ∧
      (st.htmlparser_global_warning_sax_func = some f →
        ∃ st2, htmlparser_warning_sax_handler ok expand fuel st ctx msg args = some st2 ∧
          forwards st2.trace =
            forwards st.trace ++ [Event.forward Slot.warning f ctx (some (p, s))]) := by
  obtain ⟨s, hs, htext⟩ := formatstr_some_text ok expand fuel st st1 msg args p hfmt
  obtain ⟨he, hw, hf⟩ := formatstr_sameHandlers ok expand fuel st st1 msg args _ hfmt
  refine ⟨s, hs, ?_, ?_⟩
  · intro hslot
    rw [hslot] at he
    refine ⟨free (callWrapped Slot.error f st1 ctx (some p)) p,
      by simp only [htmlparser_error_sax_handler, hslot, hfmt, he], ?_⟩
    simp only [forwards] at hf
    simp [callWrapped, free, forwards, Event.isForward, hf, htext]
  · intro hslot
    rw [hslot] at hw
    refine ⟨free (callWrapped Slot.warning f st1 ctx (some p)) p,
      by simp only [htmlparser_warning_sax_handler, hslot, hfmt, hw], ?_⟩
    simp only [forwards] at hf
    simp [callWrapped, free, forwards, Event.isForward, hf, htext]

/-- Witness for C2: with handler `7` in the error slot, the error shim called with
context `42`, template `%d warnings` and argument `3` makes the one call
`(42, "3 warnings")`. -/
theorem shim_forwards_formatted_message_witness :
    ∃ st2, htmlparser_error_sax_handler allOk cExpand 2 (initState (some 7) none) 42
        "%d warnings".toList [Arg.int 3] = some st2 ∧
      forwards st2.trace = [Event.forward Slot.error 7 42 (some (1, "3 warnings".toList))] := by
  have h := shim_forwards_formatted_message allOk cExpand 2 (initState (some 7) none)
    { live := [⟨1, 100, "3 warnings".toList⟩], next := 2, attempts := 1,
      trace := [Event.alloc 1 100], htmlparser_global_error_sax_func := some 7,
      htmlparser_global_warning_sax_func := none }
    42 "%d warnings".toList [Arg.int 3] 7 1 (by decide)
  obtain ⟨s, hs, he, -⟩ := h
  have : s = "3 warnings".toList := by
    have h3 : cExpand "%d warnings".toList [Arg.int 3] = some "3 warnings".toList := by decide
    rw [h3] at hs
    exact (Option.some.inj hs).symm
  subst this
  exact he rfl

/-- Counterexample to C3 as stated: with handler `7` in the error slot and the only
allocation attempt failing, `formatstr` returns `NULL` and the error shim still calls
the handler, with a `NULL` message. -/
theorem shim_calls_handler_when_formatter_fails :
    (formatstr (okFirst 0) cExpand 2 (initState (some 7) none) "%d warnings".toList
        [Arg.int 3]).map Prod.snd = some none ∧
    (htmlparser_error_sax_handler (okFirst 0) cExpand 2 (initState (some 7) none) 42
        "%d warnings".toList [Arg.int 3]).map (fun st2 => forwards st2.trace)
      = some [Event.forward Slot.error 7 42 none] := by
  constructor <;> decide

/-- Claim C3, amended: when the formatter returns `NULL`, a shim whose slot holds the
handler `f` still makes exactly one call to `f`, with the context unchanged and a `NULL`
message; it releases nothing and changes nothing else. -/
theorem shim_forwards_null_when_formatter_fails (ok : Nat → Bool)
    (expand : List Char → List Arg → Option (List Char)) (fuel : Nat) (st st1 : State)
    (ctx : Nat) (msg : List Char) (args : List Arg) (f : Nat)
    (hfmt : formatstr ok expand fuel st msg args = some (st1, none)) :
    (st.htmlparser_global_error_sax_func = some f →
      htmlparser_error_sax_handler ok expand fuel st ctx msg args
          = some { st1 with trace := st1.trace ++ [Event.forward Slot.error f ctx none] } ∧
        forwards (st1.trace ++ [Event.forward Slot.error f ctx none])
          = forwards st.trace ++ [Event.forward Slot.error f ctx none]) ∧
    (st.htmlparser_global_warning_sax_func = some f →
      htmlparser_warning_sax_handler ok expand fuel st ctx msg args
          = some { st1 with trace := st1.trace ++ [Event.forward Slot.warning f ctx none] } ∧
        forwards (st1.trace ++ [Event.forward Slot.warning f ctx none])
          = forwards st.trace ++ [Event.forward Slot.warning f ctx none]) := by
  obtain ⟨he, hw, hf⟩ := formatstr_sameHandlers ok expand fuel st st1 msg args _ hfmt
  simp only [forwards] at hf
  constructor
  · intro hslot
    rw [hslot] at he
    constructor
    · simp [htmlparser_error_sax_handler, hslot, hfmt, he, callWrapped]
    · simp [forwards, Event.isForward, hf]
  · intro hslot
    rw [hslot] at hw
    constructor
    · simp [htmlparser_warning_sax_handler, hslot, hfmt, hw, callWrapped]
    · simp [forwards, Event.isForward, hf]

/-- Witness for C3, amended: the warning shim with handler `9` when the only allocation
attempt fails. -/
theorem shim_forwards_null_when_formatter_fails_witness :
    htmlparser_warning_sax_handler (okFirst 0) cExpand 2 (initState none (some 9)) 42
        "%d warnings".toList [Arg.int 3]
      = some { live := [], next := 1, attempts := 1,
               trace := [Event.forward Slot.warning 9 42 none],
               htmlparser_global_error_sax_func := none,
               htmlparser_global_warning_sax_func := some 9 } :=
  ((shim_forwards_null_when_formatter_fails (okFirst 0) cExpand 2 (initState none (some 9))
    { live := [], next := 1, attempts := 1, trace := [],
      htmlparser_global_error_sax_func := none,
      htmlparser_global_warning_sax_func := some 9 }
    42 "%d warnings".toList [Arg.int 3] 9 (by decide)).2 rfl).1

/-! ## Renderings of zero characters -/

/-- Counterexample to C4 as stated: for the empty template with no arguments, and for
`%s` with an empty string, every allocation succeeds and `formatstr` returns `NULL`. -/
theorem zero_characters_returned_as_null :
    cExpand "%s".toList [Arg.str []] = some [] ∧
    (formatstr allOk cExpand 2 (initState none none) "%s".toList [Arg.str []]).map Prod.snd
      = some none ∧
    (formatstr allOk cExpand 2 (initState none none) [] []).map Prod.snd = some none := by
  refine ⟨by decide, by decide, by decide⟩

/-- Claim C4, amended: when the rendering has zero characters and the first allocation
succeeds, `formatstr` obtains one buffer of 100 bytes, releases it again and returns
`NULL`; it makes one allocation attempt and the buffer is not live afterwards. -/
theorem formatstr_zero_characters (ok : Nat → Bool)
    (expand : List Char → List Arg → Option (List Char)) (st : State)
    (format : List Char) (args : List Arg) (fuel : Nat)
    (hok : ok st.attempts = true) (hs : expand format args = some [])
    (hfuel : 1 ≤ fuel) :
    ∃ st1, formatstr ok expand fuel st format args = some (st1, none) ∧
      st1.trace = st.trace ++ [Event.alloc st.next 100, Event.release st.next] ∧
      st1.attempts = st.attempts + 1 ∧
      (∀ b ∈ st1.live, b.addr ≠ st.next) := by
  obtain ⟨k, rfl⟩ : ∃ k, fuel = k + 1 := ⟨fuel - 1, by omega⟩
  refine ⟨_, run_empty ok expand st format args k hok hs, rfl, rfl, ?_⟩
  intro b hb
  simp only [List.mem_filter] at hb
  simpa using hb.2

/-- Witness for C4, amended: the empty template with no arguments. -/
theorem formatstr_zero_characters_witness :
    ∃ st1, formatstr allOk cExpand 1 (initState none none) [] [] = some (st1, none) ∧
      st1.trace = [Event.alloc 1 100, Event.release 1] ∧
      st1.attempts = 1 ∧
      (∀ b ∈ st1.live, b.addr ≠ 1) :=
  formatstr_zero_characters allOk cExpand (initState none none) [] [] 1 rfl (by decide)
    (by decide)

/-! ## No handler registered -/

/-- Claim C5: when the slot of a shim is `NULL`, any number of invocations of that shim,
whatever their context, template and arguments, leave the whole state as it was: no
handler call, no allocation attempt, no block obtained or released. -/
theorem shims_without_handler_do_nothing (ok : Nat → Bool)
    (expand : List Char → List Arg → Option (List Char)) (fuel : Nat) (st : State)
    (calls : List Invocation)
    (hnull : ∀ i ∈ calls, slotValue st i.slot = none) :
    invokeAll ok expand fuel st calls = some st := by
  induction calls with
  | nil => rfl
  | cons i rest ih =>
    have hi : slotValue st i.slot = none := hnull i (List.mem_cons_self _ _)
    have hstep : invoke ok expand fuel st i = some st := by
      unfold invoke
      cases hsl : i.slot with
      | error =>
        rw [hsl] at hi
        simp only [slotValue] at hi
        simp [htmlparser_error_sax_handler, hi]
      | warning =>
        rw [hsl] at hi
        simp only [slotValue] at hi
        simp [htmlparser_warning_sax_handler, hi]
    simp only [invokeAll, hstep]
    exact ih (fun j hj => hnull j (List.mem_cons_of_mem _ hj))

/-- Witness for C5: three invocations of the error shim with an empty error slot, while a
warning handler is registered. -/
theorem shims_without_handler_do_nothing_witness :
    invokeAll allOk cExpand 2 (initState none (some 9))
        [⟨Slot.error, 42, "%d warnings".toList, [Arg.int 3]⟩,
         ⟨Slot.error, 43, [], []⟩,
         ⟨Slot.error, 42, "%s".toList, [Arg.str ['a']]⟩]
      = some (initState none (some 9)) :=
  shims_without_handler_do_nothing allOk cExpand 2 (initState none (some 9)) _ (by decide)

/-! ## Installing the shims -/

/-- Claim C6: `htmlparser_set_global_error_handler` stores the error shim in the `error`
field and `htmlparser_set_global_warning_handler` stores the warning shim in the
`warning` field; each leaves every other field of the structure and the whole state, the
two global slots included, unchanged. -/
theorem set_global_handlers_frame {R : Type} (st : State) (s : htmlSAXHandler R) :
    htmlparser_set_global_error_handler st (some s)
      = (st, some { warning := s.warning, error := FnPtr.htmlparser_error_sax_handler,
                    rest := s.rest }) ∧
    htmlparser_set_global_warning_handler st (some s)
      = (st, some { warning := FnPtr.htmlparser_warning_sax_handler, error := s.error,
                    rest := s.rest }) :=
  ⟨rfl, rfl⟩

/-! ## Long renderings and the size of the returned buffer -/

/-- The template `%s` with one string argument renders to that string. -/
theorem cExpand_percent_s (s : List Char) : cExpand "%s".toList [Arg.str s] = some s := by
  have h : "%s".toList = ['%', 's'] := rfl
  rw [h]
  simp [cExpand]

/-- Counterexample to C8 as stated: the message `3 warnings` has 10 characters and is
returned in a buffer of 100 bytes, not 11. -/
theorem formatstr_buffer_not_exact :
    ∃ st1 p, formatstr allOk cExpand 2 (initState none none) "%d warnings".toList
        [Arg.int 3] = some (st1, some p) ∧
      readStr st1.live p = "3 warnings".toList ∧
      capacity st1.live p = some 100 ∧
      (100 : Nat) ≠ "3 warnings".toList.length + 1 :=
  ⟨{ live := [⟨1, 100, "3 warnings".toList⟩], next := 2, attempts := 1,
     trace := [Event.alloc 1 100], htmlparser_global_error_sax_func := none,
     htmlparser_global_warning_sax_func := none }, 1,
   by decide, by decide, by decide, by decide⟩

/-- Claim C8, amended: whenever `formatstr` returns a string of `n` characters, the
capacity of the returned buffer exceeds `n`, and it is 100 bytes when `n < 100`, 200
bytes when `n = 100`, and `n + 1` bytes when `100 < n < INT_MAX`. -/
theorem formatstr_buffer_capacity (ok : Nat → Bool)
    (expand : List Char → List Arg → Option (List Char)) (fuel : Nat) (st st1 : State)
    (format : List Char) (args : List Arg) (p : Nat)
    (h : formatstr ok expand fuel st format args = some (st1, some p)) :
    ∃ s c, expand format args = some s ∧ readStr st1.live p = s ∧
      capacity st1.live p = some c ∧ s.length < c ∧
      (s.length < 100 → c = 100) ∧
      (s.length = 100 → c = 200) ∧
      (100 < s.length → (s.length : Int) < INT_MAX → c = s.length + 1) := by
  obtain ⟨s, hs, hpos, hmax, -, hcase⟩ :=
    formatstr_some_inv ok expand fuel st st1 format args p h
  rcases hcase with ⟨hshort, hp, hst⟩ | ⟨hlong, -, hp, hst⟩
  · subst hp; subst hst
    refine ⟨s, 100, hs, readStr_cons_self _ _ _ _, capacity_cons_self _ _ _ _, hshort,
      fun _ => rfl, fun h100 => by omega, fun h100 => by omega⟩
  · subst hp; subst hst
    obtain ⟨g1, g2, g3⟩ := growSize_second (s.length : Int) (by omega) (by omega)
    rw [toSizeT_natCast _ (by omega)] at g1
    refine ⟨s, growSize (s.length : Int) 100, hs, readStr_cons_self _ _ _ _,
      capacity_cons_self _ _ _ _, g1, fun h100 => by omega, fun h100 => ?_, fun h100 hlt => ?_⟩
    · exact g2 (by omega)
    · have := g3 (by omega) (by unfold INT_MAX at hlt; omega)
      omega

/-- Witness for C8, amended: the 10 characters of `3 warnings` in 100 bytes. -/
theorem formatstr_buffer_capacity_witness :
    ∃ s c, cExpand "%d warnings".toList [Arg.int 3] = some s ∧
      readStr [⟨1, 100, "3 warnings".toList⟩] 1 = s ∧
      capacity [⟨1, 100, "3 warnings".toList⟩] 1 = some c ∧ s.length < c ∧
      (s.length < 100 → c = 100) ∧
      (s.length = 100 → c = 200) ∧
      (100 < s.length → (s.length : Int) < INT_MAX → c = s.length + 1) :=
  formatstr_buffer_capacity allOk cExpand 2 (initState none none)
    { live := [⟨1, 100, "3 warnings".toList⟩], next := 2, attempts := 1,
      trace := [Event.alloc 1 100], htmlparser_global_error_sax_func := none,
      htmlparser_global_warning_sax_func := none }
    "%d warnings".toList [Arg.int 3] 1 (by decide)

/-! ## Allocation failure -/

/-- Every run of `formatstr` with two units of fuel or more ends, in one of five ways
told apart by the allocation outcomes and the required length. -/
theorem formatstr_outcome (ok : Nat → Bool)
    (expand : List Char → List Arg → Option (List Char)) (st : State)
    (format : List Char) (args : List Arg) (fuel : Nat) :
    ∃ st1 q, formatstr ok expand (fuel + 2) st format args = some (st1, q) ∧
      ((ok st.attempts = false ∧ q = none ∧ st1.attempts = st.attempts + 1) ∨
       (ok st.attempts = true ∧ requiredLength (expand format args) ≤ 0 ∧ q = none ∧
          st1.attempts = st.attempts + 1) ∨
       (ok st.attempts = true ∧ 0 < requiredLength (expand format args) ∧
          requiredLength (expand format args) < 100 ∧ q = some st.next ∧
          st1.attempts = st.attempts + 1) ∨
       (ok st.attempts = true ∧ 100 ≤ requiredLength (expand format args) ∧
          ok (st.attempts + 1) = false ∧ q = none ∧ st1.attempts = st.attempts + 2) ∨
       (ok st.attempts = true ∧ 100 ≤ requiredLength (expand format args) ∧
          ok (st.attempts + 1) = true ∧ q = some (st.next + 1) ∧
          st1.attempts = st.attempts + 2)) := by
  cases hok : ok st.attempts with
  | false =>
    exact ⟨_, _, run_first_fail ok expand st format args (fuel + 1) hok,
      Or.inl ⟨rfl, rfl, rfl⟩⟩
  | true =>
    cases hs : expand format args with
    | none =>
      exact ⟨_, _, run_no_expansion ok expand st format args (fuel + 1) hok hs,
        Or.inr (Or.inl ⟨rfl, by simp [requiredLength], rfl, rfl⟩)⟩
    | some s =>
      by_cases hbig : 2147483647 < s.length
      · refine ⟨_, _, run_overlong ok expand st format args (fuel + 1) s hok hs hbig,
          Or.inr (Or.inl ⟨rfl, ?_, rfl, rfl⟩)⟩
        simp only [requiredLength, INT_MAX]; split <;> omega
      · have hr : requiredLength (some s) = (s.length : Int) :=
          requiredLength_some s (by omega)
        by_cases hz : s.length = 0
        · have hnil : s = [] := List.length_eq_zero.mp hz
          subst hnil
          exact ⟨_, _, run_empty ok expand st format args (fuel + 1) hok hs,
            Or.inr (Or.inl ⟨rfl, by rw [hr]; simp, rfl, rfl⟩)⟩
        · by_cases hshort : s.length < 100
          · exact ⟨_, _, run_short ok expand st format args (fuel + 1) s hok hs
              (by omega) hshort,
              Or.inr (Or.inr (Or.inl ⟨rfl, by rw [hr]; omega, by rw [hr]; omega, rfl, rfl⟩))⟩
          · cases hok2 : ok (st.attempts + 1) with
            | false =>
              exact ⟨_, _, run_long_fail ok expand st format args fuel s hok hs
                (by omega) (by omega) hok2,
                Or.inr (Or.inr (Or.inr (Or.inl ⟨rfl, by rw [hr]; omega, rfl, rfl, rfl⟩)))⟩
            | true =>
              exact ⟨_, _, run_long ok expand st format args fuel s hok hs
                (by omega) (by omega) hok2,
                Or.inr (Or.inr (Or.inr (Or.inr ⟨rfl, by rw [hr]; omega, rfl, rfl, rfl⟩)))⟩

/-- Claim C9, the failing run: when the formatting primitive reports a rendered length
of 100 characters or more, the first allocation succeeds and the second fails,
`formatstr` returns `NULL` while the first buffer is still live and was never released. -/
theorem formatstr_leaks_when_growth_fails (ok : Nat → Bool)
    (expand : List Char → List Arg → Option (List Char)) (st : State)
    (format : List Char) (args : List Arg) (n : Int) (fuel : Nat)
    (hok1 : ok st.attempts = true) (hok2 : ok (st.attempts + 1) = false)
    (hn : requiredLength (expand format args) = n) (hlen : 100 ≤ n) (hfuel : 2 ≤ fuel) :
    ∃ s st1, expand format args = some s ∧
      formatstr ok expand fuel st format args = some (st1, none) ∧
      (⟨st.next, 100, s.take 99⟩ : Block) ∈ st1.live ∧
      st1.trace = st.trace ++ [Event.alloc st.next 100] := by
  obtain ⟨k, rfl⟩ : ∃ k, fuel = k + 2 := ⟨fuel - 2, by omega⟩
  obtain ⟨s, hs, hsn, hmax1⟩ := requiredLength_pos_inv _ n hn (by omega)
  exact ⟨s, _, hs,
    run_long_fail ok expand st format args k s hok1 hs (by omega) hmax1 hok2,
    List.mem_cons_self _ _, rfl⟩

/-- Witness for C9: a message of 100 characters, the first allocation succeeding and the
second failing, on an empty heap: the result is `NULL` and the heap still holds the
block at address 1. -/
theorem formatstr_leaks_when_growth_fails_witness :
    ∃ st1, formatstr (okFirst 1) cExpand 2 (initState none none) "%s".toList
        [Arg.str (List.replicate 100 'a')] = some (st1, none) ∧
      (⟨1, 100, List.replicate 99 'a'⟩ : Block) ∈ st1.live ∧
      st1.trace = [Event.alloc 1 100] := by
  obtain ⟨s, st1, hs, hrun, hlive, htrace⟩ :=
    formatstr_leaks_when_growth_fails (okFirst 1) cExpand (initState none none) "%s".toList
      [Arg.str (List.replicate 100 'a')] 100 2 (by decide) (by decide)
      (by rw [cExpand_percent_s, requiredLength_some _ (by rw [List.length_replicate]; decide),
            List.length_replicate]; rfl)
      (by decide) (by decide)
  rw [cExpand_percent_s] at hs
  cases hs
  refine ⟨st1, hrun, ?_, htrace⟩
  have h99 : List.take 99 (List.replicate 100 'a') = List.replicate 99 'a' := by decide
  rw [h99] at hlive
  exact hlive

/-- Claim C10: every run of `formatstr` ends, and if one of its allocation attempts
failed then that attempt was its last one and the result is `NULL`. -/
theorem formatstr_null_on_allocation_failure (ok : Nat → Bool)
    (expand : List Char → List Arg → Option (List Char)) (st : State)
    (format : List Char) (args : List Arg) (fuel : Nat) (hfuel : 2 ≤ fuel) :
    ∃ st1 q, formatstr ok expand fuel st format args = some (st1, q) ∧
      ∀ k, st.attempts ≤ k → k < st1.attempts → ok k = false →
        q = none ∧ st1.attempts = k + 1 := by
  obtain ⟨j, rfl⟩ : ∃ j, fuel = j + 2 := ⟨fuel - 2, by omega⟩
  obtain ⟨st1, q, hrun, hcase⟩ := formatstr_outcome ok expand st format args j
  refine ⟨st1, q, hrun, ?_⟩
  intro k hk1 hk2 hfail
  rcases hcase with ⟨-, hq, ha⟩ | ⟨h1, -, hq, ha⟩ | ⟨h1, -, -, hq, ha⟩ |
      ⟨h1, -, h2, hq, ha⟩ | ⟨h1, -, h2, hq, ha⟩
  · exact ⟨hq, by omega⟩
  · have : k = st.attempts := by omega
    subst this; rw [h1] at hfail; cases hfail
  · have : k = st.attempts := by omega
    subst this; rw [h1] at hfail; cases hfail
  · refine ⟨hq, ?_⟩
    rcases Nat.lt_or_ge st.attempts k with hlt | hge
    · omega
    · have : k = st.attempts := by omega
      subst this; rw [h1] at hfail; cases hfail
  · rcases Nat.lt_or_ge st.attempts k with hlt | hge
    · have : k = st.attempts + 1 := by omega
      subst this; rw [h2] at hfail; cases hfail
    · have : k = st.attempts := by omega
      subst this; rw [h1] at hfail; cases hfail

/-- Witness for C10: a message of 100 characters whose second allocation fails; the
run makes two attempts and returns `NULL`. -/
theorem formatstr_null_on_allocation_failure_witness :
    okFirst 1 1 = false ∧
    ∃ st1 q, formatstr (okFirst 1) cExpand 2 (initState none none) "%s".toList
        [Arg.str (List.replicate 100 'a')] = some (st1, q) ∧
      st1.attempts = 2 ∧ q = none := by
  obtain ⟨st1, q, hrun, hk⟩ :=
    formatstr_null_on_allocation_failure (okFirst 1) cExpand (initState none none)
      "%s".toList [Arg.str (List.replicate 100 'a')] 2 (by decide)
  have hatt : ((formatstr (okFirst 1) cExpand 2 (initState none none) "%s".toList
      [Arg.str (List.replicate 100 'a')]).map (fun r => r.1.attempts)) = some 2 := by
    decide
  rw [hrun] at hatt
  have h2 : st1.attempts = 2 := by simpa using hatt
  have h3 := hk 1 (by decide) (by omega) (by decide)
  exact ⟨by decide, st1, q, hrun, h2, h3.1⟩

/-! ## A `NULL` structure reference -/

/-- Claim C11: called with a `NULL` structure reference, both
`htmlparser_set_global_error_handler` and `htmlparser_set_global_warning_handler` return
with the whole state, the two global slots included, exactly as it was, and there is
still no structure behind the pointer. -/
theorem set_global_handlers_null (R : Type) (st : State) :
    htmlparser_set_global_error_handler st (none : Option (htmlSAXHandler R)) = (st, none) ∧
    htmlparser_set_global_warning_handler st (none : Option (htmlSAXHandler R))
      = (st, none) :=
  ⟨rfl, rfl⟩

/-! ## When `formatstr` returns a string -/

/-- Claim C14: every run of `formatstr` ends; its result is non-null exactly when every
allocation attempt it made succeeded and the formatting primitive reported a required
length `n ≥ 1`; a non-null result holds exactly the full rendering, of `n` characters. -/
theorem formatstr_non_null_iff (ok : Nat → Bool)
    (expand : List Char → List Arg → Option (List Char)) (st : State)
    (format : List Char) (args : List Arg) (fuel : Nat) (hfuel : 2 ≤ fuel) :
    ∃ st1 q, formatstr ok expand fuel st format args = some (st1, q) ∧
      (q ≠ none ↔
        ((∀ k, st.attempts ≤ k → k < st1.attempts → ok k = true) ∧
          1 ≤ requiredLength (expand format args))) ∧
      (∀ p, q = some p →
        ∃ s, expand format args = some s ∧
          (s.length : Int) = requiredLength (expand format args) ∧
          readStr st1.live p = s) := by
  obtain ⟨j, rfl⟩ : ∃ j, fuel = j + 2 := ⟨fuel - 2, by omega⟩
  obtain ⟨st1, q, hrun, hcase⟩ := formatstr_outcome ok expand st format args j
  refine ⟨st1, q, hrun, ?_, ?_⟩
  · rcases hcase with ⟨h1, hq, ha⟩ | ⟨h1, hn, hq, ha⟩ | ⟨h1, hn, -, hq, ha⟩ |
        ⟨h1, hn, h2, hq, ha⟩ | ⟨h1, hn, h2, hq, ha⟩
    · subst hq
      refine ⟨fun h => absurd rfl h, fun h => ?_⟩
      have := h.1 st.attempts (Nat.le_refl _) (by omega)
      rw [h1] at this; cases this
    · subst hq
      exact ⟨fun h => absurd rfl h, fun h => by omega⟩
    · subst hq
      refine ⟨fun _ => ⟨fun k hk1 hk2 => ?_, by omega⟩, fun _ => by simp⟩
      have : k = st.attempts := by omega
      subst this; exact h1
    · subst hq
      refine ⟨fun h => absurd rfl h, fun h => ?_⟩
      have := h.1 (st.attempts + 1) (by omega) (by omega)
      rw [h2] at this; cases this
    · subst hq
      refine ⟨fun _ => ⟨fun k hk1 hk2 => ?_, by omega⟩, fun _ => by simp⟩
      rcases Nat.lt_or_ge st.attempts k with hlt | hge
      · have : k = st.attempts + 1 := by omega
        subst this; exact h2
      · have : k = st.attempts := by omega
        subst this; exact h1
  · intro p hp
    subst hp
    obtain ⟨s, hs, hpos, hmax, -, hst⟩ :=
      formatstr_some_inv ok expand (j + 2) st st1 format args p hrun
    refine ⟨s, hs, ?_, ?_⟩
    · rw [hs, requiredLength_some s hmax]
    · rcases hst with ⟨-, hp, hst⟩ | ⟨-, -, hp, hst⟩ <;>
        · subst hp; subst hst; exact readStr_cons_self _ _ _ _

/-- Witness for C14: the template `%d warnings` with argument `3` when every allocation
succeeds: the result is non-null and holds `3 warnings`. -/
theorem formatstr_non_null_iff_witness :
    ∃ st1 p, formatstr allOk cExpand 2 (initState none none) "%d warnings".toList
        [Arg.int 3] = some (st1, some p) ∧
      readStr st1.live p = "3 warnings".toList := by
  obtain ⟨st1, q, hrun, hiff, htext⟩ :=
    formatstr_non_null_iff allOk cExpand (initState none none) "%d warnings".toList
      [Arg.int 3] 2 (by decide)
  have hq : q ≠ none := hiff.mpr ⟨fun _ _ _ => rfl, by decide⟩
  obtain ⟨p, hp⟩ := Option.ne_none_iff_exists'.mp hq
  subst hp
  obtain ⟨s, hs, -, hread⟩ := htext p rfl
  have h3 : cExpand "%d warnings".toList [Arg.int 3] = some "3 warnings".toList := by decide
  rw [h3] at hs
  cases hs
  exact ⟨st1, p, hrun, hread⟩

/-! ## Passes of the loop and termination -/

/-- Library `vsnprintf` returns the required length, whatever the size. -/
theorem vsnprintf_ret (expand : List Char → List Arg → Option (List Char)) (st : State)
    (b size : Nat) (format : List Char) (args : List Arg) :
    (vsnprintf expand st b size format args).2 = requiredLength (expand format args) := by
  simp only [vsnprintf]
  cases expand format args with
  | none => rfl
  | some s => simp only []; split <;> rfl

/-- Library `vsnprintf` makes no allocation attempt. -/
theorem vsnprintf_attempts (expand : List Char → List Arg → Option (List Char))
    (st : State) (b size : Nat) (format : List Char) (args : List Arg) :
    (vsnprintf expand st b size format args).1.attempts = st.attempts := by
  simp only [vsnprintf]
  cases expand format args with
  | none => rfl
  | some s => simp only []; split <;> rfl

/-- Library `realloc` is one allocation attempt. -/
theorem realloc_attempts (ok : Nat → Bool) (st : State) (p : Option Nat) (size : Nat) :
    (realloc ok st p size).1.attempts = st.attempts + 1 := by
  unfold realloc
  split
  · cases p <;> rfl
  · rfl

/-- Library `realloc` returns the fresh address exactly when the attempt succeeds. -/
theorem realloc_result (ok : Nat → Bool) (st : State) (p : Option Nat) (size : Nat) :
    (realloc ok st p size).2 = if ok st.attempts then some st.next else none := by
  unfold realloc
  split <;> rfl

/-- The locals after one pass of the loop, and the number of attempts it made. -/
theorem loopBody_locals (ok : Nat → Bool)
    (expand : List Char → List Arg → Option (List Char)) (format : List Char)
    (args : List Arg) (st : State) (l : Locals) :
    (loopBody ok expand format args st l).1.attempts = st.attempts + 1 ∧
    (loopBody ok expand format args st l).2 =
      if ok st.attempts then
        ⟨requiredLength (expand format args), growSize l.consumed l.buffer_size,
          some st.next⟩
      else ⟨l.consumed, growSize l.consumed l.buffer_size, none⟩ := by
  simp only [loopBody]
  have hres := realloc_result ok st l.buffer (growSize l.consumed l.buffer_size)
  cases hok : ok st.attempts with
  | false =>
    rw [hok] at hres
    simp only [Bool.false_eq_true, if_false] at hres ⊢
    rw [hres]
    exact ⟨realloc_attempts ok st _ _, rfl⟩
  | true =>
    rw [hok] at hres
    simp only [if_true] at hres ⊢
    rw [hres]
    simp only [vsnprintf_ret, vsnprintf_attempts, realloc_attempts, and_self]

/-- The loop goes on after a pass exactly when the buffer was obtained and the reported
length does not fit it. -/
theorem loopCond_iff (n : Int) (size : Nat) (b : Option Nat) (hn : n ≤ 2147483647) :
    loopCond ⟨n, size, b⟩ = true ↔ (b ≠ none ∧ 0 < n ∧ (size : Int) ≤ n) := by
  simp only [loopCond, Bool.and_eq_true, decide_eq_true_eq, toSizeT]
  constructor
  · rintro ⟨⟨hb, hpos⟩, hge⟩
    refine ⟨?_, hpos, by omega⟩
    intro h; rw [h] at hb; cases hb
  · rintro ⟨hb, hpos, hge⟩
    refine ⟨⟨?_, hpos⟩, by omega⟩
    cases b with
    | none => exact absurd rfl hb
    | some p => rfl

/-- Counterexample to C12 as stated: for `3 warnings` the required length 10 exceeds the
initial size 0, yet the first pass asks for 100 bytes and not for 11; and for a required
length of `INT_MAX` the `int` addition wraps, so that a second pass asks for
`2 ^ 64 - 2 ^ 31` bytes and not for `INT_MAX + 1`. -/
theorem loop_growth_not_always_to_fit :
    requiredLength (cExpand "%d warnings".toList [Arg.int 3]) = 10 ∧
    (loopBody allOk cExpand "%d warnings".toList [Arg.int 3] (initState none none)
      ⟨0, 0, none⟩).2.buffer_size = 100 ∧
    (100 : Nat) ≠ 10 + 1 ∧
    growSize INT_MAX 100 = 2 ^ 64 - 2 ^ 31 ∧
    ((2 ^ 64 - 2 ^ 31 : Nat) : Int) ≠ INT_MAX + 1 := by
  refine ⟨by decide, by decide, by decide, by decide, by decide⟩

/-- Claim C12, amended: the first pass of the loop raises the candidate size from 0 by
the fixed increment 100 whatever the required length `n` is; a second pass happens
exactly when the first allocation succeeded and `n ≥ 100`, and raises the size again, to
`n + 1` when `100 < n < INT_MAX` and by 100 when `n = 100`; no third pass happens. The
loop exits after one or two allocation attempts, each time either because the attempt
failed or with a buffer larger than `n`, and `formatstr` returns. -/
theorem formatstr_loop_terminates (ok : Nat → Bool)
    (expand : List Char → List Arg → Option (List Char)) (st : State)
    (format : List Char) (args : List Arg) (fuel : Nat) (hfuel : 2 ≤ fuel) :
    ∃ st1 l1, loopBody ok expand format args st ⟨0, 0, none⟩ = (st1, l1) ∧
      l1.buffer_size = 0 + 100 ∧
      (loopCond l1 = true ↔
        (ok st.attempts = true ∧ 100 ≤ requiredLength (expand format args))) ∧
      (loopCond l1 = false →
        doWhile ok expand format args fuel st ⟨0, 0, none⟩ = some (st1, l1) ∧
        st1.attempts = st.attempts + 1 ∧
        ((l1.buffer = none ∧ ok st.attempts = false) ∨
         (l1.buffer ≠ none ∧ requiredLength (expand format args) < l1.buffer_size))) ∧
      (loopCond l1 = true →
        ∃ st2 l2, loopBody ok expand format args st1 l1 = (st2, l2) ∧
          l1.buffer_size < l2.buffer_size ∧
          (100 < requiredLength (expand format args) →
            requiredLength (expand format args) < INT_MAX →
            (l2.buffer_size : Int) = requiredLength (expand format args) + 1) ∧
          (requiredLength (expand format args) = 100 →
            l2.buffer_size = l1.buffer_size + 100) ∧
          loopCond l2 = false ∧
          doWhile ok expand format args fuel st ⟨0, 0, none⟩ = some (st2, l2) ∧
          st2.attempts = st.attempts + 2 ∧
          ((l2.buffer = none ∧ ok (st.attempts + 1) = false) ∨
           (l2.buffer ≠ none ∧ requiredLength (expand format args) < l2.buffer_size))) ∧
      ∃ st3 q, formatstr ok expand fuel st format args = some (st3, q) ∧
        st3.attempts ≤ st.attempts + 2 := by
  obtain ⟨j, rfl⟩ : ∃ j, fuel = j + 2 := ⟨fuel - 2, by omega⟩
  have hterm : ∃ st3 q, formatstr ok expand (j + 2) st format args = some (st3, q) ∧
      st3.attempts ≤ st.attempts + 2 := by
    obtain ⟨st3, q, hrun, hcase⟩ := formatstr_outcome ok expand st format args j
    refine ⟨st3, q, hrun, ?_⟩
    rcases hcase with ⟨-, -, ha⟩ | ⟨-, -, -, ha⟩ | ⟨-, -, -, -, ha⟩ | ⟨-, -, -, -, ha⟩ |
      ⟨-, -, -, -, ha⟩ <;> omega
  have hle := requiredLength_le (expand format args)
  obtain ⟨ha1, hl1⟩ := loopBody_locals ok expand format args st ⟨0, 0, none⟩
  generalize hr1 : loopBody ok expand format args st ⟨0, 0, none⟩ = r1 at ha1 hl1
  obtain ⟨st1, l1⟩ := r1
  generalize hn : requiredLength (expand format args) = n at hle hl1 ⊢
  simp only [growSize_init] at ha1 hl1
  refine ⟨st1, l1, rfl, ?_, ?_, ?_, ?_, hterm⟩
  · rw [hl1]; split <;> rfl
  · rw [hl1]
    cases hok : ok st.attempts with
    | false => simp [loopCond]
    | true =>
      simp only [if_true, true_and]
      rw [loopCond_iff n 100 _ hle]
      constructor
      · rintro ⟨-, -, h⟩; exact_mod_cast h
      · intro h; exact ⟨by simp, by omega, by exact_mod_cast h⟩
  · intro hcond
    refine ⟨by simp only [doWhile, hr1, hcond]; rfl, ha1, ?_⟩
    rw [hl1] at hcond ⊢
    cases hok : ok st.attempts with
    | false => left; simp
    | true =>
      right
      rw [hok] at hcond
      simp only [if_true] at hcond ⊢
      refine ⟨by simp, ?_⟩
      by_contra hlt
      have hc : loopCond ⟨n, 100, some st.next⟩ = true :=
        (loopCond_iff n 100 _ hle).mpr ⟨by simp, by push_cast at hlt; omega,
          by push_cast at hlt ⊢; omega⟩
      rw [hc] at hcond; cases hcond
  · intro hcond
    have hok : ok st.attempts = true := by
      cases h : ok st.attempts with
      | false => rw [hl1, h] at hcond; simp [loopCond] at hcond
      | true => rfl
    rw [hok] at hl1
    simp only [if_true] at hl1
    subst hl1
    obtain ⟨-, hpos, hge⟩ := (loopCond_iff n 100 _ hle).mp hcond
    have hge1 : (100 : Int) ≤ n := by exact_mod_cast hge
    obtain ⟨ha2, hl2⟩ := loopBody_locals ok expand format args st1
      ⟨n, 100, some st.next⟩
    generalize hr2 : loopBody ok expand format args st1 ⟨n, 100, some st.next⟩ = r2
      at ha2 hl2
    obtain ⟨st2, l2⟩ := r2
    rw [hn, ha1] at hl2
    rw [ha1] at ha2
    simp only [] at hl2
    obtain ⟨g1, g2, g3⟩ := growSize_second n hge1 hle
    have hts : toSizeT n = n.toNat := by unfold toSizeT; omega
    rw [hts] at g1
    have hnot : loopCond l2 = false := by
      rw [hl2]
      cases hok2 : ok (st.attempts + 1) with
      | false => simp [loopCond]
      | true =>
        simp only [if_true]
        cases hc : loopCond ⟨n, growSize n 100, some st1.next⟩ with
        | false => rfl
        | true =>
          obtain ⟨-, -, hbad⟩ := (loopCond_iff n _ _ hle).mp hc
          omega
    refine ⟨st2, l2, rfl, ?_, ?_, ?_, hnot, ?_, ha2, ?_⟩
    · rw [hl2]; split <;> simp only [] <;> omega
    · intro h100 hmax
      have hg := g3 h100 (by unfold INT_MAX at hmax; omega)
      rw [hl2]; split <;> simp only [] <;> omega
    · intro h100
      have hg := g2 h100
      rw [hl2]; split <;> simp only [] <;> omega
    · simp only [doWhile, hr1, hr2, hcond, hnot, if_true]
      rfl
    · rw [hl2]
      cases hok2 : ok (st.attempts + 1) with
      | false => left; simp
      | true => right; simp only [if_true]; exact ⟨by simp, by omega⟩

/-- Witness for C12, amended: a message of 5000 characters takes two passes, asking
for 100 and then 5001 bytes, and the loop ends there. -/
theorem formatstr_loop_terminates_witness :
    ∃ st1 l1 st2 l2,
      loopBody allOk cExpand "%s".toList [Arg.str (List.replicate 5000 'a')]
        (initState none none) ⟨0, 0, none⟩ = (st1, l1) ∧
      l1.buffer_size = 100 ∧
      loopBody allOk cExpand "%s".toList [Arg.str (List.replicate 5000 'a')] st1 l1
        = (st2, l2) ∧
      (l2.buffer_size : Int) = 5001 ∧
      doWhile allOk cExpand "%s".toList [Arg.str (List.replicate 5000 'a')] 2
        (initState none none) ⟨0, 0, none⟩ = some (st2, l2) ∧
      st2.attempts = 2 := by
  have hn : requiredLength (cExpand "%s".toList [Arg.str (List.replicate 5000 'a')])
      = 5000 := by
    rw [cExpand_percent_s, requiredLength_some _ (by rw [List.length_replicate]; decide),
      List.length_replicate]
    rfl
  obtain ⟨st1, l1, h1, hsize, hiff, -, hsecond, -⟩ :=
    formatstr_loop_terminates allOk cExpand (initState none none) "%s".toList
      [Arg.str (List.replicate 5000 'a')] 2 (by decide)
  rw [hn] at hiff hsecond
  obtain ⟨st2, l2, h2, -, hfit, -, -, hloop, hatt, -⟩ :=
    hsecond (hiff.mpr ⟨rfl, by decide⟩)
  exact ⟨st1, l1, st2, l2, h1, hsize, h2, hfit (by decide) (by decide), hloop, hatt⟩

/-! ## Buffers of successful invocations -/

/-- Storing a string at an address no block has changes nothing. -/
theorem writeStr_fresh (l : List Block) (p : Nat) (t : List Char)
    (h : ∀ b ∈ l, b.addr ≠ p) : writeStr l p t = l := by
  unfold writeStr
  induction l with
  | nil => rfl
  | cons b rest ih =>
    have hb : b.addr ≠ p := h b (List.mem_cons_self _ _)
    simp only [List.map_cons, List.cons.injEq]
    refine ⟨by simp [hb], ih (fun c hc => h c (List.mem_cons_of_mem _ hc))⟩

/-- Releasing an address no block has changes nothing. -/
theorem filter_fresh (l : List Block) (p : Nat) (h : ∀ b ∈ l, b.addr ≠ p) :
    l.filter (fun b => b.addr != p) = l := by
  rw [List.filter_eq_self]
  intro b hb
  simpa using h b hb

/-- One invocation with a handler in its slot, a rendering of at least one character and
successful allocations: the whole state afterwards. -/
theorem invoke_success (ok : Nat → Bool)
    (expand : List Char → List Arg → Option (List Char)) (fuel : Nat) (st : State)
    (i : Invocation) (f : Nat) (s : List Char) (hfuel : 2 ≤ fuel) (hheap : HeapOk st)
    (hok1 : ok st.attempts = true) (hok2 : ok (st.attempts + 1) = true)
    (hslot : slotValue st i.slot = some f) (hs : expand i.msg i.args = some s)
    (hpos : 0 < s.length) (hmax : s.length ≤ 2147483647) :
    invoke ok expand fuel st i
      = some { st with
               next := st.next + invocationBuffers s
               attempts := st.attempts + invocationBuffers s
               trace := st.trace ++ expectedInvocationEvents st.next i.slot f i.ctx s } := by
  obtain ⟨k, rfl⟩ : ∃ k, fuel = k + 2 := ⟨fuel - 2, by omega⟩
  have hf0 : ∀ b ∈ st.live, b.addr ≠ st.next := fun b hb => Nat.ne_of_lt (hheap b hb)
  have hf1 : ∀ b ∈ st.live, b.addr ≠ st.next + 1 := fun b hb => by
    have := hheap b hb; omega
  by_cases hshort : s.length < 100
  · have hrun := run_short ok expand st i.msg i.args (k + 1) s hok1 hs hpos hshort
    cases hsl : i.slot with
    | error =>
      rw [hsl] at hslot
      simp only [slotValue] at hslot
      simp [invoke, hsl, htmlparser_error_sax_handler, hslot, hrun, callWrapped, free,
        readStr_cons_self, writeStr_fresh _ _ _ hf0, filter_fresh _ _ hf0,
        expectedInvocationEvents, invocationBuffers, hshort]
    | warning =>
      rw [hsl] at hslot
      simp only [slotValue] at hslot
      simp [invoke, hsl, htmlparser_warning_sax_handler, hslot, hrun, callWrapped, free,
        readStr_cons_self, writeStr_fresh _ _ _ hf0, filter_fresh _ _ hf0,
        expectedInvocationEvents, invocationBuffers, hshort]
  · have hrun := run_long ok expand st i.msg i.args k s hok1 hs (by omega) hmax hok2
    cases hsl : i.slot with
    | error =>
      rw [hsl] at hslot
      simp only [slotValue] at hslot
      simp [invoke, hsl, htmlparser_error_sax_handler, hslot, hrun, callWrapped, free,
        readStr_cons_self, writeStr_fresh _ _ _ hf0, filter_fresh _ _ hf0,
        writeStr_fresh _ _ _ hf1, filter_fresh _ _ hf1,
        expectedInvocationEvents, invocationBuffers, hshort]
    | warning =>
      rw [hsl] at hslot
      simp only [slotValue] at hslot
      simp [invoke, hsl, htmlparser_warning_sax_handler, hslot, hrun, callWrapped, free,
        readStr_cons_self, writeStr_fresh _ _ _ hf0, filter_fresh _ _ hf0,
        writeStr_fresh _ _ _ hf1, filter_fresh _ _ hf1,
        expectedInvocationEvents, invocationBuffers, hshort]

/-- The buffers of one reference invocation: obtained at consecutive fresh addresses,
each released once, the last one forwarded once. -/
theorem expectedInvocationEvents_addrs (lo : Nat) (slot : Slot) (f ctx : Nat)
    (s : List Char) :
    (expectedInvocationEvents lo slot f ctx s).filterMap Event.allocAddr
      = List.range' lo (invocationBuffers s) ∧
    (expectedInvocationEvents lo slot f ctx s).filterMap Event.releaseAddr
      = List.range' lo (invocationBuffers s) ∧
    (expectedInvocationEvents lo slot f ctx s).filterMap Event.forwardAddr
      = [lo + invocationBuffers s - 1] ∧
    forwards (expectedInvocationEvents lo slot f ctx s)
      = [Event.forward slot f ctx (some (lo + invocationBuffers s - 1, s))] := by
  unfold expectedInvocationEvents invocationBuffers
  split <;>
    simp [Event.allocAddr, Event.releaseAddr, Event.forwardAddr, forwards, Event.isForward,
      List.range'_succ]

/-- A sequence of invocations, each with a handler in its slot, a rendering of at least
one character and successful allocations, leaves the reference trace and the heap it
found. -/
theorem invokeAll_success (ok : Nat → Bool)
    (expand : List Char → List Arg → Option (List Char)) (fuel : Nat) (hfuel : 2 ≤ fuel)
    (calls : List Invocation) :
    ∀ st : State, HeapOk st → (∀ k, st.attempts ≤ k → ok k = true) →
      (∀ i ∈ calls, slotValue st i.slot ≠ none) →
      (∀ i ∈ calls, 1 ≤ requiredLength (expand i.msg i.args)) →
      ∃ st1, invokeAll ok expand fuel st calls = some st1 ∧
        st1.trace = st.trace ++ expectedTrace expand (slotValue st) st.next calls ∧
        st1.live = st.live ∧ st.next ≤ st1.next ∧
        (expectedTrace expand (slotValue st) st.next calls).filterMap Event.allocAddr
          = List.range' st.next (st1.next - st.next) ∧
        (expectedTrace expand (slotValue st) st.next calls).filterMap Event.releaseAddr
          = List.range' st.next (st1.next - st.next) ∧
        ((expectedTrace expand (slotValue st) st.next calls).filterMap
          Event.forwardAddr).Sublist (List.range' st.next (st1.next - st.next)) ∧
        (forwards (expectedTrace expand (slotValue st) st.next calls)).length
          = calls.length := by
  induction calls with
  | nil =>
    intro st _ _ _ _
    exact ⟨st, rfl, by simp [expectedTrace], rfl, Nat.le_refl _,
      by simp [expectedTrace], by simp [expectedTrace], by simp [expectedTrace],
      by simp [expectedTrace, forwards]⟩
  | cons i rest ih =>
    intro st hheap hok hreg hlen
    obtain ⟨s, hs, hsn, hmax⟩ :=
      requiredLength_pos_inv _ _ rfl (hlen i (List.mem_cons_self _ _))
    have hpos : 0 < s.length := by
      have := hlen i (List.mem_cons_self _ _); omega
    obtain ⟨f, hslot⟩ := Option.ne_none_iff_exists'.mp (hreg i (List.mem_cons_self _ _))
    have hstep := invoke_success ok expand fuel st i f s hfuel hheap
      (hok _ (Nat.le_refl _)) (hok _ (Nat.le_succ _)) hslot hs hpos hmax
    have hb : 1 ≤ invocationBuffers s := by unfold invocationBuffers; split <;> omega
    obtain ⟨st1, hrun, htrace, hlive, hnext, halloc, hrel, hfwd, hcount⟩ :=
      ih { st with
           next := st.next + invocationBuffers s
           attempts := st.attempts + invocationBuffers s
           trace := st.trace ++ expectedInvocationEvents st.next i.slot f i.ctx s }
        (fun b hb1 => Nat.lt_of_lt_of_le (hheap b hb1) (Nat.le_add_right _ _))
        (fun k hk => hok k (Nat.le_trans (Nat.le_add_right _ _) hk))
        (fun j hj => hreg j (List.mem_cons_of_mem _ hj))
        (fun j hj => hlen j (List.mem_cons_of_mem _ hj))
    simp only [] at hrun htrace hlive hnext halloc hrel hfwd hcount
    have hsl : slotValue { st with
           next := st.next + invocationBuffers s
           attempts := st.attempts + invocationBuffers s
           trace := st.trace ++ expectedInvocationEvents st.next i.slot f i.ctx s }
        = slotValue st := by
      funext sl; cases sl <;> rfl
    rw [hsl] at htrace halloc hrel hfwd hcount
    obtain ⟨ea, er, ef, ec⟩ := expectedInvocationEvents_addrs st.next i.slot f i.ctx s
    have hE : expectedTrace expand (slotValue st) st.next (i :: rest)
        = expectedInvocationEvents st.next i.slot f i.ctx s ++
          expectedTrace expand (slotValue st) (st.next + invocationBuffers s) rest := by
      simp only [expectedTrace, hslot, hs]
    have hsplit : st1.next - st.next
        = (st1.next - (st.next + invocationBuffers s)) + invocationBuffers s := by omega
    have hrange : List.range' st.next (st1.next - st.next)
        = List.range' st.next (invocationBuffers s) ++
          List.range' (st.next + invocationBuffers s)
            (st1.next - (st.next + invocationBuffers s)) := by
      rw [hsplit, List.range'_append_1]
    refine ⟨st1, ?_, ?_, hlive, by omega, ?_, ?_, ?_, ?_⟩
    · simp only [invokeAll, hstep]; exact hrun
    · rw [htrace, hE, List.append_assoc]
    · rw [hE, List.filterMap_append, ea, halloc, hrange]
    · rw [hE, List.filterMap_append, er, hrel, hrange]
    · rw [hE, List.filterMap_append, ef, hrange]
      refine List.Sublist.append ?_ hfwd
      unfold invocationBuffers
      split <;> simp [List.range'_succ]
    · rw [hE]
      simp only [forwards, List.filter_append, List.length_append] at hcount ec ⊢
      rw [ec, hcount]
      simp [Nat.add_comm]

/-- Claim C13: for every sequence of shim invocations, each with a handler in its slot
and a successful formatting (a rendering of at least one character, no allocation
failing), run on a well-formed heap: the trace grows by exactly the reference trace, in
which every invocation obtains its own message buffer, hands it to the handler once and
releases it after that call. The buffers obtained have consecutive fresh addresses, so
none is taken twice; every buffer obtained is released exactly once; every buffer
forwarded is one of them and is forwarded once; there is one handler call for each
invocation; and the heap afterwards is the heap before, so that no buffer stays live. -/
theorem shims_buffer_discipline (ok : Nat → Bool)
    (expand : List Char → List Arg → Option (List Char)) (fuel : Nat) (st : State)
    (calls : List Invocation) (hfuel : 2 ≤ fuel) (hheap : HeapOk st)
    (hok : ∀ k, st.attempts ≤ k → ok k = true)
    (hreg : ∀ i ∈ calls, slotValue st i.slot ≠ none)
    (hlen : ∀ i ∈ calls, 1 ≤ requiredLength (expand i.msg i.args)) :
    ∃ st1 evs, invokeAll ok expand fuel st calls = some st1 ∧
      st1.trace = st.trace ++ evs ∧
      evs = expectedTrace expand (slotValue st) st.next calls ∧
      st1.live = st.live ∧ HeapOk st1 ∧
      evs.filterMap Event.allocAddr = List.range' st.next (st1.next - st.next) ∧
      evs.filterMap Event.releaseAddr = evs.filterMap Event.allocAddr ∧
      (evs.filterMap Event.releaseAddr).Nodup ∧
      (evs.filterMap Event.forwardAddr).Sublist (evs.filterMap Event.allocAddr) ∧
      (evs.filterMap Event.forwardAddr).Nodup ∧
      (forwards evs).length = calls.length := by
  obtain ⟨st1, hrun, htrace, hlive, hnext, halloc, hrel, hfwd, hcount⟩ :=
    invokeAll_success ok expand fuel hfuel calls st hheap hok hreg hlen
  have hnd : (List.range' st.next (st1.next - st.next)).Nodup := List.nodup_range' _ _
  refine ⟨st1, _, hrun, htrace, rfl, hlive, ?_, halloc, ?_, ?_, ?_, ?_, hcount⟩
  · intro b hb
    rw [hlive] at hb
    exact Nat.lt_of_lt_of_le (hheap b hb) hnext
  · rw [hrel, halloc]
  · rw [hrel]; exact hnd
  · rw [halloc]; exact hfwd
  · exact hfwd.nodup hnd

/-- Witness for C13: an error and a warning invocation with different templates, one
after the other, both handlers registered, on an empty heap. -/
theorem shims_buffer_discipline_witness :
    ∃ st1, invokeAll allOk cExpand 2 (initState (some 7) (some 9))
        [⟨Slot.error, 42, "%d warnings".toList, [Arg.int 3]⟩,
         ⟨Slot.warning, 43, "%s".toList, [Arg.str ['a', 'b']]⟩] = some st1 ∧
      st1.trace =
        [Event.alloc 1 100,
         Event.forward Slot.error 7 42 (some (1, "3 warnings".toList)),
         Event.release 1,
         Event.alloc 2 100,
         Event.forward Slot.warning 9 43 (some (2, ['a', 'b'])),
         Event.release 2] ∧
      st1.live = [] := by
  obtain ⟨st1, evs, hrun, htrace, hevs, hlive, -⟩ :=
    shims_buffer_discipline allOk cExpand 2 (initState (some 7) (some 9))
      [⟨Slot.error, 42, "%d warnings".toList, [Arg.int 3]⟩,
       ⟨Slot.warning, 43, "%s".toList, [Arg.str ['a', 'b']]⟩]
      (by decide) (by intro b hb; cases hb) (fun _ _ => rfl) (by decide) (by decide)
  refine ⟨st1, hrun, ?_, hlive⟩
  rw [htrace, hevs]
  decide

end CHTMLSAXParser
